import Mathlib

set_option maxHeartbeats 1000000

namespace FishBot

/-- Python whitespace: the characters matched by `str.split()`, `str.strip()`
and the regex class `\s` in `bot.py` (space, tab, newline, carriage return,
vertical tab, form feed). -/
def pyIsSpace (c : Char) : Bool :=
  c == ' ' || c == '\t' || c == '\n' || c == '\r' || c == '\x0b' || c == '\x0c'

/-- Python `str.lower()` on the ASCII text handled by `bot.py`. -/
def pyLower (l : List Char) : List Char := l.map Char.toLower

/-- Python `str.lstrip()` on a character list. -/
def pyLStrip (l : List Char) : List Char := l.dropWhile pyIsSpace

/-- Python `str.rstrip()` on a character list. -/
def pyRStrip (l : List Char) : List Char := (l.reverse.dropWhile pyIsSpace).reverse

/-- Python `str.strip()` on a character list. -/
def pyStrip (l : List Char) : List Char := pyRStrip (pyLStrip l)

/-- Auxiliary scanner for `splitNL`; `acc` holds the current line reversed. -/
def splitNLAux : List Char → List Char → List (List Char)
  | acc, [] => [acc.reverse]
  | acc, c :: t =>
    if c == '\n' then acc.reverse :: splitNLAux [] t else splitNLAux (c :: acc) t

/-- Python `full_text.split('\n')` (line 96 of `bot.py`): splits at every
newline, keeping empty pieces. -/
def splitNL (l : List Char) : List (List Char) := splitNLAux [] l

/-- Auxiliary scanner for `pySplit`; `acc` holds the current word reversed. -/
def pySplitAux : List Char → List Char → List (List Char)
  | acc, [] => if acc.isEmpty then [] else [acc.reverse]
  | acc, c :: t =>
    if pyIsSpace c then
      if acc.isEmpty then pySplitAux [] t else acc.reverse :: pySplitAux [] t
    else pySplitAux (c :: acc) t

/-- Python `str.split()` with no separator (line 119 of `bot.py`): splits on
runs of whitespace, producing no empty words. -/
def pySplit (l : List Char) : List (List Char) := pySplitAux [] l

/-- Python substring membership `needle in haystack` (lines 119 and 218 of
`bot.py`). -/
def containsSub (needle : List Char) : List Char → Bool
  | [] => needle.isEmpty
  | c :: t => needle.isPrefixOf (c :: t) || containsSub needle t

/-- Word characters of the regex class `\w` over ASCII text. -/
def isWordChar (c : Char) : Bool := c.isAlpha || c.isDigit || c == '_'

/-- Wordness of an optional neighbouring character; a string edge counts as
non-word, exactly as the regex anchor `\b` treats it. -/
def wordnessOpt : Option Char → Bool
  | none => false
  | some c => isWordChar c

/-- Scanner for `re.search(r'\b' + re.escape(word) + r'\b', text)` (line 74 of
`bot.py`): a match is tried at every suffix, `prev` being the character
directly before the current suffix; the anchor `\b` demands that wordness
change across each end of the match. -/
def reSearchWordAux (w : List Char) : Option Char → List Char → Bool
  | _, [] => false
  | prev, c :: t =>
    (w.isPrefixOf (c :: t) && (wordnessOpt prev != wordnessOpt w.head?) &&
      (wordnessOpt (((c :: t).drop w.length).head?) != wordnessOpt w.getLast?))
    || reSearchWordAux w (some c) t

/-- `re.search(r'\b' + re.escape(word) + r'\b', text)` viewed as a Bool. -/
def reSearchWord (w text : List Char) : Bool := reSearchWordAux w none text

/-- The blocklist literal of `load_negative_words` (lines 61–69 of `bot.py`).
Python stores these in a `set` and only membership is used, so a list with
the same elements is a faithful model. -/
def negativeWords : List (List Char) :=
  [("hate").data, ("stupid").data, ("idiot").data, ("moron").data, ("retard").data,
   ("shit").data, ("fuck").data, ("asshole").data, ("bastard").data, ("bitch").data,
   ("cunt").data, ("damn").data, ("hell").data, ("dumb").data, ("loser").data,
   ("fucking").data, ("ass").data, ("dick").data, ("piss").data, ("cock").data,
   ("pussy").data, ("fag").data, ("faggot").data, ("whore").data, ("slut").data,
   ("nigger").data, ("nigga").data, ("chink").data, ("spic").data, ("kike").data,
   ("terrorist").data]

/-- `check_negative_content` (lines 71–74 of `bot.py`): lowercase the text and
search for each blocklisted word with `\b` boundaries; any hit flags it. -/
def check_negative_content (text : List Char) : Bool :=
  negativeWords.any (fun w => reSearchWord w (pyLower text))

/-- The character preceding the current suffix during a scan: the last
character of the part `pre` already consumed, or, when `pre` is empty, the
character `p` that preceded the whole scan. -/
def lastOr (p : Option Char) (l : List Char) : Option Char :=
  match l.getLast? with
  | some c => some c
  | none => p

/-- A whole-word occurrence with `\b`-style boundaries: the text splits as
`pre ++ w ++ post` and the characters adjacent to `w` (string edges counting
as non-word) are non-word characters.  For the alphabetic blocklist words
this is exactly a match of the regex `\b word \b`. -/
def WholeWordAt (w t : List Char) : Prop :=
  ∃ pre post, t = pre ++ w ++ post ∧
    wordnessOpt pre.getLast? = false ∧ wordnessOpt post.head? = false

/-- The question marker `'Q:'` of the corpus convention. -/
def qMark : List Char := ['Q', ':']

/-- The answer marker `'A:'` of the corpus convention. -/
def aMark : List Char := ['A', ':']

/-- Parser state of the `Q:`/`A:` loop (lines 92–94 of `bot.py`):
`current_question` and `current_answer` start as Python `None`, hence the
options; Python truthiness of a string is non-emptiness. -/
structure QAState where
  pairs : List (List Char × List Char)
  question : Option (List Char)
  answer : Option (List Char)

/-- Python truthiness of an optional string: `None` and `""` are falsy. -/
def truthyS : Option (List Char) → Bool
  | none => false
  | some s => !s.isEmpty

/-- One iteration of the parsing loop (lines 96–106 of `bot.py`). -/
def qaStep (st : QAState) (rawLine : List Char) : QAState :=
  let line := pyStrip rawLine
  if qMark.isPrefixOf line then
    { pairs :=
        if truthyS st.question && truthyS st.answer then
          st.pairs ++ [(st.question.getD [], st.answer.getD [])]
        else st.pairs,
      question := some (pyStrip (line.drop 2)),
      answer := some [] }
  else if aMark.isPrefixOf line && truthyS st.question then
    { st with answer := some (pyStrip (line.drop 2)) }
  else if truthyS st.question && st.answer.isSome then
    { st with answer := some (st.answer.getD [] ++ ' ' :: line) }
  else st

/-- The corpus parser inside `get_knowledge_response` (lines 91–109 of
`bot.py`), including the final flush of a pending pair. -/
def parseQA (fullText : List Char) : List (List Char × List Char) :=
  let st := (splitNL fullText).foldl qaStep ⟨[], none, none⟩
  if truthyS st.question && truthyS st.answer then
    st.pairs ++ [(st.question.getD [], st.answer.getD [])]
  else st.pairs

/-- The word-overlap score (line 119 of `bot.py`): how many of the query's
words occur as substrings of the lowercased question. -/
def scoreOf (queryWords : List (List Char)) (question : List Char) : Nat :=
  (queryWords.filter (fun w => containsSub w (pyLower question))).length

/-- One iteration of the best-match loop (lines 116–122 of `bot.py`); the
improvement test is strict, so the first candidate reaching the top score
is the one kept. -/
def selectStep (queryWords : List (List Char))
    (acc : Option (List Char) × Nat) (p : List Char × List Char) :
    Option (List Char) × Nat :=
  let s := scoreOf queryWords p.1
  if acc.2 < s then (some p.2, s) else acc

/-- The sentinel returned for an unmatched query (line 127 of `bot.py`). -/
def unknownSentinel : List Char :=
  ("I don\x27t have information about that yet. I\x27ll save it to learn more.").data

/-- `get_knowledge_response` after a successful corpus fetch (lines 91–127 of
`bot.py`); the Google-Docs text extraction (lines 80–89) is modelled by
taking the fetched text as an argument. -/
def get_knowledge_response (query fullText : List Char) : List Char :=
  let queryWords := pySplit (pyLower query)
  let r := (parseQA fullText).foldl (selectStep queryWords) (none, 0)
  match r with
  | (some best, s) => if best ≠ [] ∧ 2 ≤ s then best else unknownSentinel
  | (none, _) => unknownSentinel

/-- The message of the `except` branch (line 131 of `bot.py`). -/
def unavailableSentinel : List Char :=
  ("Sorry, I\x27m having trouble accessing my knowledge base right now.").data

/-- `get_knowledge_response` with the corpus fetch made explicit: the `try`
block (lines 78–127 of `bot.py`) spans the fetch and all processing, and the
`except` branch (lines 129–131) converts any failure into the fixed
unavailable message, so the function is total and never re-raises. -/
def respondWithFetch (fetch : Except Unit (List Char)) (query : List Char) : List Char :=
  match fetch with
  | Except.ok t => get_knowledge_response query t
  | Except.error _ => unavailableSentinel

/-- The phrase tested by `handle_message` (line 218 of `bot.py`). -/
def learnPhrase : List Char := ("I don\x27t have information").data

/-- The learning-queue trigger in `handle_message` (line 218 of `bot.py`):
a substring check against the reply text. -/
def shouldSave (response : List Char) : Bool := containsSub learnPhrase response

/-- Fuelled scanner for
`re.sub(r'@' + name + r'\s*', '', text, flags=re.IGNORECASE)` (line 211 of
`bot.py`): at each position either the pattern — an `@`, the bot name
compared case-insensitively, then a greedy run of whitespace — matches and
is deleted, or one character is kept.  The fuel only bounds recursion;
`subMention` always supplies enough. -/
def subMentionF (name : List Char) : Nat → List Char → List Char
  | 0, t => t
  | _ + 1, [] => []
  | fuel + 1, c :: rest =>
    if ('@' :: pyLower name).isPrefixOf (pyLower (c :: rest)) then
      subMentionF name fuel ((rest.drop name.length).dropWhile pyIsSpace)
    else c :: subMentionF name fuel rest

/-- The mention-removing substitution of line 211 of `bot.py`. -/
def subMention (name text : List Char) : List Char := subMentionF name text.length text

/-- The query extraction of `handle_message` (line 211 of `bot.py`): delete
the `@`-mentions of the bot, then trim surrounding whitespace. -/
def extract_query (name text : List Char) : List Char := pyStrip (subMention name text)

/-- The dedup decision of `save_to_learning_sheet` (lines 136–146 of `bot.py`)
as a pure function over a snapshot of the sheet rows: `none` means no row is
appended, `some r` means exactly the row `r` is appended.  The timestamp
`str(datetime.datetime.now())` is passed in by the caller. -/
def save_to_learning_sheet (phrase context timestamp : List Char)
    (existingRows : List (List (List Char))) : Option (List (List Char)) :=
  let existingPhrases := (existingRows.filter (fun r => !r.isEmpty)).map
    (fun r => pyLower (r.headD []))
  if pyLower phrase ∈ existingPhrases then none
  else some [phrase, context, timestamp]

/-- `add_to_knowledge_doc` (lines 151–177 of `bot.py`): the new content
`"\nQ: {question}\nA: {answer}\n"` built at line 155 is inserted at the end
of the document, modelled as appending it to the corpus text. -/
def appendQA (corpus question answer : List Char) : List Char :=
  corpus ++ '\n' :: ('Q' :: ':' :: ' ' :: question)
         ++ '\n' :: ('A' :: ':' :: ' ' :: answer) ++ ['\n']

/-- Modelled from the spec: fuelled Levenshtein edit distance.  Spec §4.2
step 3 describes a fuzzy fallback using a "normalized edit-distance-based
similarity"; `bot.py` contains no such computation, so this definition
follows the spec's words only. -/
def editDistanceF : Nat → List Char → List Char → Nat
  | 0, a, b => a.length + b.length
  | _ + 1, [], b => b.length
  | _ + 1, a, [] => a.length
  | fuel + 1, x :: xs, y :: ys =>
    if x == y then editDistanceF fuel xs ys
    else 1 + min (editDistanceF fuel xs (y :: ys))
      (min (editDistanceF fuel (x :: xs) ys) (editDistanceF fuel xs ys))

/-- Modelled from the spec: Levenshtein edit distance with adequate fuel. -/
def editDistance (a b : List Char) : Nat := editDistanceF (a.length + b.length) a b

/-- Modelled from the spec: normalized edit-distance similarity in [0,1]
(spec §4.2 step 3); `bot.py` has no counterpart. -/
def specSimilarity (a b : List Char) : ℚ :=
  if a.length = 0 ∧ b.length = 0 then 1
  else 1 - (editDistance a b : ℚ) / (max a.length b.length : ℚ)

/-- The greatest overlap score over the parsed pairs (0 when there are none),
the final value of the running maximum started at 0 (line 114 of `bot.py`). -/
def maxScore (queryWords : List (List Char))
    (pairs : List (List Char × List Char)) : Nat :=
  pairs.foldr (fun p m => max (scoreOf queryWords p.1) m) 0

lemma maxScore_cons (qw : List (List Char)) (p : List Char × List Char)
    (rest : List (List Char × List Char)) :
    maxScore qw (p :: rest) = max (scoreOf qw p.1) (maxScore qw rest) := rfl

lemma selectStep_eq (qw : List (List Char)) (acc : Option (List Char) × Nat)
    (p : List Char × List Char) :
    selectStep qw acc p =
      if acc.2 < scoreOf qw p.1 then (some p.2, scoreOf qw p.1) else acc := rfl

lemma selectStep_snd (qw : List (List Char)) (acc : Option (List Char) × Nat)
    (p : List Char × List Char) :
    (selectStep qw acc p).2 = max acc.2 (scoreOf qw p.1) := by
  rw [selectStep_eq]
  split
  · next h => exact (max_eq_right h.le).symm
  · next h => exact (max_eq_left (le_of_not_lt h)).symm

lemma foldl_selectStep_snd (qw : List (List Char)) :
    ∀ (pairs : List (List Char × List Char)) (acc : Option (List Char) × Nat),
      (pairs.foldl (selectStep qw) acc).2 = max acc.2 (maxScore qw pairs) := by
  intro pairs
  induction pairs with
  | nil => intro acc; simp [maxScore]
  | cons p rest ih =>
    intro acc
    rw [List.foldl_cons, ih, selectStep_snd, maxScore_cons, max_assoc]

lemma foldl_selectStep_const (qw : List (List Char)) :
    ∀ (pairs : List (List Char × List Char)) (acc : Option (List Char) × Nat),
      maxScore qw pairs ≤ acc.2 → pairs.foldl (selectStep qw) acc = acc := by
  intro pairs
  induction pairs with
  | nil => intro acc _; rfl
  | cons p rest ih =>
    intro acc h
    rw [maxScore_cons] at h
    rw [List.foldl_cons, selectStep_eq,
      if_neg (not_lt.mpr (le_trans (le_max_left _ _) h))]
    exact ih acc (le_trans (le_max_right _ _) h)

lemma foldl_selectStep_max (qw : List (List Char)) :
    ∀ (pairs : List (List Char × List Char)) (acc : Option (List Char) × Nat),
      acc.2 < maxScore qw pairs →
      ∃ p, pairs.find? (fun r => scoreOf qw r.1 == maxScore qw pairs) = some p ∧
        pairs.foldl (selectStep qw) acc = (some p.2, maxScore qw pairs) := by
  intro pairs
  induction pairs with
  | nil => intro acc h; simp [maxScore] at h
  | cons p rest ih =>
    intro acc h
    rw [maxScore_cons] at h ⊢
    rcases le_or_lt (maxScore qw rest) (scoreOf qw p.1) with hc | hc
    · rw [max_eq_left hc] at h ⊢
      refine ⟨p, ?_, ?_⟩
      · rw [List.find?_cons_of_pos _ (by simp)]
      · rw [List.foldl_cons, selectStep_eq, if_pos h]
        exact foldl_selectStep_const qw rest (some p.2, scoreOf qw p.1) hc
    · rw [max_eq_right hc.le] at h ⊢
      have hacc : (selectStep qw acc p).2 < maxScore qw rest := by
        rw [selectStep_snd]
        exact max_lt h hc
      obtain ⟨r, hfind, hfold⟩ := ih (selectStep qw acc p) hacc
      refine ⟨r, ?_, ?_⟩
      · rw [List.find?_cons_of_neg _ (by simp only [beq_iff_eq]; omega), hfind]
      · rw [List.foldl_cons, hfold]

lemma foldl_selectStep_mem (qw : List (List Char)) :
    ∀ (pairs : List (List Char × List Char)) (acc : Option (List Char) × Nat),
      (pairs.foldl (selectStep qw) acc).1 = acc.1 ∨
        ∃ p ∈ pairs, (pairs.foldl (selectStep qw) acc).1 = some p.2 := by
  intro pairs
  induction pairs with
  | nil => intro acc; left; rfl
  | cons p rest ih =>
    intro acc
    rw [List.foldl_cons]
    rcases ih (selectStep qw acc p) with h | ⟨r, hr, h⟩
    · rw [h, selectStep_eq]
      by_cases hs : acc.2 < scoreOf qw p.1
      · right
        refine ⟨p, List.mem_cons_self _ _, ?_⟩
        rw [if_pos hs]
      · left
        rw [if_neg hs]
    · right
      exact ⟨r, List.mem_cons_of_mem _ hr, h⟩

lemma truthyS_true_iff (o : Option (List Char)) :
    truthyS o = true ↔ ∃ s, o = some s ∧ s ≠ [] := by
  cases o with
  | none => simp [truthyS]
  | some s => simp [truthyS, List.isEmpty_iff]

lemma qaStep_eq (st : QAState) (l : List Char) :
    qaStep st l =
      if qMark.isPrefixOf (pyStrip l) then
        { pairs :=
            if truthyS st.question && truthyS st.answer then
              st.pairs ++ [(st.question.getD [], st.answer.getD [])]
            else st.pairs,
          question := some (pyStrip ((pyStrip l).drop 2)),
          answer := some [] }
      else if aMark.isPrefixOf (pyStrip l) && truthyS st.question then
        { st with answer := some (pyStrip ((pyStrip l).drop 2)) }
      else if truthyS st.question && st.answer.isSome then
        { st with answer := some (st.answer.getD [] ++ ' ' :: pyStrip l) }
      else st := rfl

lemma qaStep_pairs (st : QAState) (l : List Char) :
    (qaStep st l).pairs = st.pairs ∨
      ∃ q a, q ≠ [] ∧ a ≠ [] ∧ (qaStep st l).pairs = st.pairs ++ [(q, a)] := by
  rw [qaStep_eq]
  split
  · by_cases h : (truthyS st.question && truthyS st.answer) = true
    · obtain ⟨hq, ha⟩ : truthyS st.question = true ∧ truthyS st.answer = true := by
        simpa using h
      obtain ⟨q, hq1, hq2⟩ := (truthyS_true_iff _).mp hq
      obtain ⟨a, ha1, ha2⟩ := (truthyS_true_iff _).mp ha
      right
      rw [hq1] at hq
      rw [ha1] at ha
      exact ⟨q, a, hq2, ha2, by simp [hq1, ha1, hq, ha]⟩
    · left
      simp [h]
  · split
    · left; rfl
    · split
      · left; rfl
      · left; rfl

lemma foldl_qaStep_inv (lines : List (List Char)) :
    ∀ (st : QAState), (∀ p ∈ st.pairs, p.1 ≠ [] ∧ p.2 ≠ []) →
      ∀ p ∈ (lines.foldl qaStep st).pairs, p.1 ≠ [] ∧ p.2 ≠ [] := by
  induction lines with
  | nil => intro st h; exact h
  | cons l rest ih =>
    intro st h
    rw [List.foldl_cons]
    refine ih (qaStep st l) ?_
    rcases qaStep_pairs st l with heq | ⟨q, a, hq, ha, heq⟩
    · rw [heq]; exact h
    · rw [heq]
      intro p hp
      rcases List.mem_append.mp hp with hp | hp
      · exact h p hp
      · rcases List.mem_singleton.mp hp with rfl
        exact ⟨hq, ha⟩

lemma parseQA_eq (fullText : List Char) :
    parseQA fullText =
      (if truthyS ((splitNL fullText).foldl qaStep ⟨[], none, none⟩).question &&
          truthyS ((splitNL fullText).foldl qaStep ⟨[], none, none⟩).answer then
        ((splitNL fullText).foldl qaStep ⟨[], none, none⟩).pairs ++
          [(((splitNL fullText).foldl qaStep ⟨[], none, none⟩).question.getD [],
            ((splitNL fullText).foldl qaStep ⟨[], none, none⟩).answer.getD [])]
      else ((splitNL fullText).foldl qaStep ⟨[], none, none⟩).pairs) := rfl

/-- Every pair the corpus parser produces has a non-empty question and a
non-empty answer: both flush sites are guarded by Python truthiness. -/
lemma parseQA_entries_nonempty (fullText : List Char) :
    ∀ p ∈ parseQA fullText, p.1 ≠ [] ∧ p.2 ≠ [] := by
  intro p hp
  rw [parseQA_eq] at hp
  set st := (splitNL fullText).foldl qaStep ⟨[], none, none⟩ with hst
  have hbase : ∀ r ∈ st.pairs, r.1 ≠ [] ∧ r.2 ≠ [] :=
    foldl_qaStep_inv (splitNL fullText) ⟨[], none, none⟩ (by simp)
  by_cases h : (truthyS st.question && truthyS st.answer) = true
  · rw [if_pos h] at hp
    rcases List.mem_append.mp hp with hp | hp
    · exact hbase p hp
    · obtain ⟨hq, ha⟩ : truthyS st.question = true ∧ truthyS st.answer = true := by
        simpa using h
      obtain ⟨q, hq1, hq2⟩ := (truthyS_true_iff _).mp hq
      obtain ⟨a, ha1, ha2⟩ := (truthyS_true_iff _).mp ha
      rcases List.mem_singleton.mp hp with rfl
      constructor
      · simpa [hq1] using hq2
      · simpa [ha1] using ha2
  · rw [if_neg h] at hp
    exact hbase p hp

lemma qaStep_initial_noQ (l : List Char) (ps : List (List Char × List Char))
    (h : qMark.isPrefixOf (pyStrip l) = false) :
    qaStep ⟨ps, none, none⟩ l = ⟨ps, none, none⟩ := by
  rw [qaStep_eq]
  rw [if_neg (by simp [h]), if_neg (by simp [truthyS]), if_neg (by simp [truthyS])]

/-- A corpus with no `Q:`-marked line parses to no pairs at all: nothing ever
makes `current_question` truthy, so every branch of the loop is inert. -/
lemma parseQA_noQ (fullText : List Char)
    (h : ∀ l ∈ splitNL fullText, qMark.isPrefixOf (pyStrip l) = false) :
    parseQA fullText = [] := by
  have hfold : ∀ (lines : List (List Char)),
      (∀ l ∈ lines, qMark.isPrefixOf (pyStrip l) = false) →
      lines.foldl qaStep ⟨[], none, none⟩ = ⟨[], none, none⟩ := by
    intro lines
    induction lines with
    | nil => intro _; rfl
    | cons l rest ih =>
      intro hl
      rw [List.foldl_cons, qaStep_initial_noQ l [] (hl l (List.mem_cons_self _ _))]
      exact ih (fun x hx => hl x (List.mem_cons_of_mem _ hx))
  rw [parseQA_eq, hfold (splitNL fullText) h]
  simp [truthyS]

lemma get_knowledge_response_eq (query fullText : List Char) :
    get_knowledge_response query fullText =
      match (parseQA fullText).foldl (selectStep (pySplit (pyLower query)))
          ((none : Option (List Char)), 0) with
      | (some best, s) => if best ≠ [] ∧ 2 ≤ s then best else unknownSentinel
      | (none, _) => unknownSentinel := rfl

/-- Claim C1: on a parsed corpus, the overlap pass scores each candidate
question by the number of lowercased query words occurring as substrings of
the lowercased question; when the top score is at least 2 the answer of the
first candidate attaining it (corpus order) is returned, otherwise the
unknown sentinel is. -/
theorem c1_overlap_selection (query fullText : List Char) :
    (2 ≤ maxScore (pySplit (pyLower query)) (parseQA fullText) →
      ∃ p, (parseQA fullText).find?
          (fun r => scoreOf (pySplit (pyLower query)) r.1 ==
            maxScore (pySplit (pyLower query)) (parseQA fullText)) = some p ∧
        get_knowledge_response query fullText = p.2) ∧
    (maxScore (pySplit (pyLower query)) (parseQA fullText) < 2 →
      get_knowledge_response query fullText = unknownSentinel) := by
  constructor
  · intro h2
    obtain ⟨p, hfind, hfold⟩ :=
      foldl_selectStep_max (pySplit (pyLower query)) (parseQA fullText)
        ((none : Option (List Char)), 0) (by simpa using lt_of_lt_of_le (by norm_num) h2)
    refine ⟨p, hfind, ?_⟩
    have hne := (parseQA_entries_nonempty fullText p (List.mem_of_find?_eq_some hfind)).2
    rw [get_knowledge_response_eq, hfold]
    exact if_pos ⟨hne, h2⟩
  · intro hlt
    have hsnd := foldl_selectStep_snd (pySplit (pyLower query)) (parseQA fullText)
      ((none : Option (List Char)), 0)
    rw [get_knowledge_response_eq]
    rcases hres : (parseQA fullText).foldl (selectStep (pySplit (pyLower query)))
        ((none : Option (List Char)), 0) with ⟨b, s⟩
    rw [hres] at hsnd
    have hs : s = maxScore (pySplit (pyLower query)) (parseQA fullText) := by
      simpa using hsnd
    cases b with
    | none => rfl
    | some best =>
      show (if best ≠ [] ∧ 2 ≤ s then best else unknownSentinel) = unknownSentinel
      rw [if_neg]
      rintro ⟨-, h2⟩
      rw [hs] at h2
      omega

/-- Witness for C1 at the spec's own example corpus and query; the stored
answer carries a trailing blank because the final empty line of the corpus is
appended to it by the continuation branch. -/
theorem c1_overlap_selection_witness :
    2 ≤ maxScore (pySplit (pyLower (("what is x").data)))
        (parseQA (("Q: What is X?\nA: X is Y.\n").data)) ∧
    get_knowledge_response (("what is x").data) (("Q: What is X?\nA: X is Y.\n").data) =
      ("X is Y. ").data := by
  have h2 : 2 ≤ maxScore (pySplit (pyLower (("what is x").data)))
      (parseQA (("Q: What is X?\nA: X is Y.\n").data)) := by decide
  obtain ⟨p, hfind, hresp⟩ := (c1_overlap_selection (("what is x").data)
    (("Q: What is X?\nA: X is Y.\n").data)).1 h2
  refine ⟨h2, ?_⟩
  have hev : (parseQA (("Q: What is X?\nA: X is Y.\n").data)).find?
      (fun r => scoreOf (pySplit (pyLower (("what is x").data))) r.1 ==
        maxScore (pySplit (pyLower (("what is x").data)))
          (parseQA (("Q: What is X?\nA: X is Y.\n").data))) =
      some ((("What is X?").data), (("X is Y. ").data)) := by decide
  rw [hev] at hfind
  have hp : ((("What is X?").data, ("X is Y. ").data) : List Char × List Char) = p :=
    Option.some.inj hfind
  rw [hresp, ← hp]

/-- Claim C3 counterexample: for the query `"hello"` against the corpus
`"Q: hello\nA: world"` the overlap pass finds only one matching word, the
candidate question is identical to the lowercased query (similarity 1 ≥ 0.6),
yet the code returns the unknown sentinel instead of the answer `"world"`:
`bot.py` has no fuzzy fallback. -/
theorem c3_counterexample :
    parseQA (("Q: hello\nA: world").data) = [(("hello").data, ("world").data)] ∧
    maxScore (pySplit (pyLower (("hello").data)))
      (parseQA (("Q: hello\nA: world").data)) < 2 ∧
    (6 / 10 : ℚ) ≤ specSimilarity (pyLower (("hello").data)) (pyLower (("hello").data)) ∧
    get_knowledge_response (("hello").data) (("Q: hello\nA: world").data) =
      unknownSentinel ∧
    unknownSentinel ≠ ("world").data := by
  have hd : editDistance (pyLower (("hello").data)) (pyLower (("hello").data)) = 0 := by
    decide
  have hl : (pyLower (("hello").data)).length = 5 := by decide
  have hs : specSimilarity (pyLower (("hello").data)) (pyLower (("hello").data)) = 1 := by
    rw [specSimilarity, if_neg (by omega)]
    rw [hd, hl]
    norm_num
  exact ⟨by decide, by decide, by rw [hs]; norm_num, by decide, by decide⟩

/-- Claim C3 amended: `get_knowledge_response` has no fuzzy fallback at all;
whenever the overlap pass finds no candidate scoring at least 2, the unknown
sentinel is returned, regardless of any candidate's similarity to the query. -/
theorem c3_amended_no_fuzzy (query fullText : List Char)
    (h : maxScore (pySplit (pyLower query)) (parseQA fullText) < 2) :
    get_knowledge_response query fullText = unknownSentinel := by
  have hsnd := foldl_selectStep_snd (pySplit (pyLower query)) (parseQA fullText)
    ((none : Option (List Char)), 0)
  rw [get_knowledge_response_eq]
  rcases hres : (parseQA fullText).foldl (selectStep (pySplit (pyLower query)))
      ((none : Option (List Char)), 0) with ⟨b, s⟩
  rw [hres] at hsnd
  have hs : s = maxScore (pySplit (pyLower query)) (parseQA fullText) := by
    simpa using hsnd
  cases b with
  | none => rfl
  | some best =>
    show (if best ≠ [] ∧ 2 ≤ s then best else unknownSentinel) = unknownSentinel
    rw [if_neg]
    rintro ⟨-, h2⟩
    rw [hs] at h2
    omega

/-- Witness for the amended C3 at the counterexample's input. -/
theorem c3_amended_no_fuzzy_witness :
    maxScore (pySplit (pyLower (("hello").data)))
      (parseQA (("Q: hello\nA: world").data)) < 2 ∧
    get_knowledge_response (("hello").data) (("Q: hello\nA: world").data) =
      unknownSentinel :=
  ⟨by decide, c3_amended_no_fuzzy (("hello").data) (("Q: hello\nA: world").data) (by decide)⟩

/-- Claim C4 counterexample: a corpus answer that itself contains the phrase
`"I don't have information"` is returned as a real answer, is distinct from
the unknown sentinel, and still triggers the learning-queue save, because
`handle_message` only does a substring test on the reply text. -/
theorem c4_counterexample :
    get_knowledge_response (("what is learning").data)
      (("Q: what is learning\nA: I don\x27t have information handling here.").data) =
      ("I don\x27t have information handling here.").data ∧
    (∃ p ∈ parseQA
        (("Q: what is learning\nA: I don\x27t have information handling here.").data),
      p.2 = ("I don\x27t have information handling here.").data) ∧
    ("I don\x27t have information handling here.").data ≠ unknownSentinel ∧
    shouldSave (("I don\x27t have information handling here.").data) = true := by
  exact ⟨by decide, by decide, by decide, by decide⟩

/-- Claim C4 amended: every response is either the unknown sentinel or the
answer of some parsed pair; the caller's trigger is a substring test which
fires on the unknown sentinel, so an Unknown reply always enqueues, and a
reply on which the trigger does not fire is never the sentinel — but a real
corpus answer containing the phrase also fires the trigger. -/
theorem c4_amended_learning_trigger (query fullText : List Char) :
    (get_knowledge_response query fullText = unknownSentinel ∨
      ∃ p ∈ parseQA fullText, get_knowledge_response query fullText = p.2) ∧
    shouldSave unknownSentinel = true ∧
    (shouldSave (get_knowledge_response query fullText) = false →
      get_knowledge_response query fullText ≠ unknownSentinel) := by
  refine ⟨?_, by decide, ?_⟩
  · rw [get_knowledge_response_eq]
    rcases hres : (parseQA fullText).foldl (selectStep (pySplit (pyLower query)))
        ((none : Option (List Char)), 0) with ⟨b, s⟩
    cases b with
    | none => left; rfl
    | some best =>
      by_cases hc : best ≠ [] ∧ 2 ≤ s
      · right
        show ∃ p ∈ parseQA fullText,
          (if best ≠ [] ∧ 2 ≤ s then best else unknownSentinel) = p.2
        rw [if_pos hc]
        rcases foldl_selectStep_mem (pySplit (pyLower query)) (parseQA fullText)
            ((none : Option (List Char)), 0) with hmem | ⟨p, hp, hmem⟩
        · rw [hres] at hmem
          simp at hmem
        · rw [hres] at hmem
          exact ⟨p, hp, Option.some.inj hmem⟩
      · left
        show (if best ≠ [] ∧ 2 ≤ s then best else unknownSentinel) = unknownSentinel
        rw [if_neg hc]
  · intro hfalse heq
    rw [heq] at hfalse
    have htrue : shouldSave unknownSentinel = true := by decide
    rw [htrue] at hfalse
    cases hfalse

/-- Witness for the amended C4: the trigger fires on the unknown sentinel,
and a reply without the phrase is provably not the sentinel. -/
theorem c4_amended_learning_trigger_witness :
    shouldSave unknownSentinel = true ∧
    get_knowledge_response (("aa bb").data) (("Q: aa bb\nA: yes").data) ≠
      unknownSentinel :=
  ⟨(c4_amended_learning_trigger [] []).2.1,
   (c4_amended_learning_trigger (("aa bb").data) (("Q: aa bb\nA: yes").data)).2.2
     (by decide)⟩

/-- Claim C5: when the corpus fetch fails, the `except` branch produces the
fixed unavailable message, which differs from the unknown sentinel and does
not fire the learning-queue trigger; the failure is absorbed (the model
function is total), never re-raised. -/
theorem c5_unavailable_distinct (query : List Char) (e : Unit) :
    respondWithFetch (Except.error e) query = unavailableSentinel ∧
    unavailableSentinel ≠ unknownSentinel ∧
    shouldSave unavailableSentinel = false :=
  ⟨rfl, by decide, by decide⟩

/-- Witness for C5 at a concrete query. -/
theorem c5_unavailable_distinct_witness :
    respondWithFetch (Except.error ()) (("what is x").data) = unavailableSentinel ∧
    shouldSave unavailableSentinel = false :=
  ⟨(c5_unavailable_distinct (("what is x").data) ()).1,
   (c5_unavailable_distinct (("what is x").data) ()).2.2⟩

/-- Claim C6: the learning-sheet dedup declines exactly when some existing
non-empty row's first field equals the phrase case-insensitively; otherwise
it appends exactly the row `[phrase, context, timestamp]`. -/
theorem c6_dedup (phrase context ts : List Char) (rows : List (List (List Char))) :
    (save_to_learning_sheet phrase context ts rows = none ↔
      ∃ r ∈ rows, r ≠ [] ∧ pyLower (r.headD []) = pyLower phrase) ∧
    (save_to_learning_sheet phrase context ts rows = none ∨
      save_to_learning_sheet phrase context ts rows = some [phrase, context, ts]) := by
  have heq : save_to_learning_sheet phrase context ts rows =
      if pyLower phrase ∈
          ((rows.filter (fun r => !r.isEmpty)).map (fun r => pyLower (r.headD []))) then
        none
      else some [phrase, context, ts] := rfl
  rw [heq]
  by_cases hmem : pyLower phrase ∈
      ((rows.filter (fun r => !r.isEmpty)).map (fun r => pyLower (r.headD [])))
  · rw [if_pos hmem]
    refine ⟨⟨fun _ => ?_, fun _ => rfl⟩, Or.inl rfl⟩
    obtain ⟨r, hr, hrp⟩ := List.mem_map.mp hmem
    have hf := List.mem_filter.mp hr
    exact ⟨r, hf.1, by simpa [List.isEmpty_iff] using hf.2, hrp⟩
  · rw [if_neg hmem]
    refine ⟨⟨(fun h => by cases h), ?_⟩, Or.inr rfl⟩
    rintro ⟨r, hr, hrne, hrp⟩
    exact absurd (List.mem_map.mpr
      ⟨r, List.mem_filter.mpr ⟨hr, by simpa [List.isEmpty_iff] using hrne⟩, hrp⟩) hmem

/-- Witness for C6: a case-insensitive duplicate is declined, a fresh phrase
is appended as `[phrase, context, timestamp]`. -/
theorem c6_dedup_witness :
    save_to_learning_sheet (("HELLO").data) (("c").data) (("t").data)
      [[("Hello").data, ("x").data]] = none ∧
    save_to_learning_sheet (("new").data) (("c").data) (("t").data)
      [[("Hello").data, ("x").data]] =
      some [("new").data, ("c").data, ("t").data] := by
  constructor
  · exact (c6_dedup (("HELLO").data) (("c").data) (("t").data)
      [[("Hello").data, ("x").data]]).1.mpr
      ⟨[("Hello").data, ("x").data], by decide, by decide, by decide⟩
  · rcases (c6_dedup (("new").data) (("c").data) (("t").data)
        [[("Hello").data, ("x").data]]).2 with h | h
    · obtain ⟨r, hr, -, hrp⟩ := (c6_dedup (("new").data) (("c").data) (("t").data)
        [[("Hello").data, ("x").data]]).1.mp h
      rcases List.mem_singleton.mp hr with rfl
      exact absurd hrp (by decide)
    · exact h

/-- Claim C7 counterexample: a corpus that never uses the `Q:`/`A:`
convention parses to no candidates at all, and a query equal to one of its
lines still gets the unknown sentinel — there is no line-oriented fallback
mode in `get_knowledge_response`. -/
theorem c7_counterexample :
    splitNL (("hello world\nfoo bar").data) =
      [("hello world").data, ("foo bar").data] ∧
    parseQA (("hello world\nfoo bar").data) = [] ∧
    get_knowledge_response (("hello world").data) (("hello world\nfoo bar").data) =
      unknownSentinel ∧
    unknownSentinel ≠ ("hello world").data := by
  exact ⟨by decide, by decide, by decide, by decide⟩

/-- Claim C7 amended: for any corpus with no `Q:`-marked line the parser
yields no matchable units and every query receives the unknown sentinel;
non-`Q:`/`A:` corpora can never produce Answer results. -/
theorem c7_amended_no_line_mode (query fullText : List Char)
    (h : ∀ l ∈ splitNL fullText, qMark.isPrefixOf (pyStrip l) = false) :
    parseQA fullText = [] ∧ get_knowledge_response query fullText = unknownSentinel := by
  have hp := parseQA_noQ fullText h
  refine ⟨hp, ?_⟩
  rw [get_knowledge_response_eq, hp]
  rfl

/-- Witness for the amended C7 at the counterexample corpus. -/
theorem c7_amended_no_line_mode_witness :
    parseQA (("hello world\nfoo bar").data) = [] ∧
    get_knowledge_response (("hello world").data) (("hello world\nfoo bar").data) =
      unknownSentinel :=
  c7_amended_no_line_mode (("hello world").data) (("hello world\nfoo bar").data)
    (by decide)

/-- Claim C10 counterexample: the corpus `"Q: foo\nbar"` contains no `A:`
line at all, yet the parser produces the entry `("foo", " bar")` — the
continuation branch accumulates plain lines into the answer as soon as a
`Q:` line has been seen — and the matcher returns that text for a scoring
query. -/
theorem c10_counterexample :
    (∀ l ∈ splitNL (("Q: foo\nbar").data), aMark.isPrefixOf (pyStrip l) = false) ∧
    parseQA (("Q: foo\nbar").data) = [(("foo").data, (" bar").data)] ∧
    get_knowledge_response (("fo oo").data) (("Q: foo\nbar").data) = (" bar").data := by
  exact ⟨by decide, by decide, by decide⟩

/-- Claim C10 amended: the parser produces an entry only from a `Q:` line
with non-empty question text whose accumulated answer (from an `A:` line or
from continuation lines; an `A:` line is not required) is non-empty, and a
corpus with no `Q:` line — in particular stray `A:` lines or text before the
first `Q:` alone — contributes no entries. -/
theorem c10_amended_entry_invariant (fullText : List Char) :
    (∀ p ∈ parseQA fullText, p.1 ≠ [] ∧ p.2 ≠ []) ∧
    ((∀ l ∈ splitNL fullText, qMark.isPrefixOf (pyStrip l) = false) →
      parseQA fullText = []) :=
  ⟨parseQA_entries_nonempty fullText, fun h => parseQA_noQ fullText h⟩

/-- Witness for the amended C10: stray `A:` lines and plain text produce no
entries. -/
theorem c10_amended_entry_invariant_witness :
    parseQA (("A: orphan\nplain line").data) = [] :=
  (c10_amended_entry_invariant (("A: orphan\nplain line").data)).2 (by decide)

lemma lastOr_nil (p : Option Char) : lastOr p [] = p := rfl

lemma lastOr_none (l : List Char) : lastOr none l = l.getLast? := by
  cases h : l.getLast? <;> simp [lastOr, h]

lemma lastOr_cons (p : Option Char) (c : Char) (l : List Char) :
    lastOr p (c :: l) = lastOr (some c) l := by
  cases l with
  | nil => rfl
  | cons d m =>
    unfold lastOr
    rw [List.getLast?_cons_cons]
    cases h2 : (d :: m).getLast? with
    | none =>
      exfalso
      rw [List.getLast?_eq_getLast _ (by simp)] at h2
      cases h2
    | some e => rfl

lemma isPrefixOf_append_self (w t : List Char) : w.isPrefixOf (w ++ t) = true :=
  List.isPrefixOf_iff_prefix.mpr (List.prefix_append w t)

lemma reSearchWordAux_cons (w : List Char) (prev : Option Char) (c : Char)
    (rest : List Char) :
    reSearchWordAux w prev (c :: rest) =
      ((w.isPrefixOf (c :: rest) && (wordnessOpt prev != wordnessOpt w.head?) &&
        (wordnessOpt (((c :: rest).drop w.length).head?) != wordnessOpt w.getLast?))
      || reSearchWordAux w (some c) rest) := rfl

/-- The scanner of `reSearchWordAux` finds exactly the splits of the text into
`pre ++ w ++ post` with non-word (or edge) characters on both sides, for any
`w` that begins and ends with a word character. -/
lemma reSearchWordAux_iff (w : List Char) (hw1 : wordnessOpt w.head? = true)
    (hw2 : wordnessOpt w.getLast? = true) :
    ∀ (t : List Char) (prev : Option Char),
      reSearchWordAux w prev t = true ↔
        ∃ pre post, t = pre ++ w ++ post ∧
          wordnessOpt (lastOr prev pre) = false ∧ wordnessOpt post.head? = false := by
  intro t
  induction t with
  | nil =>
    intro prev
    constructor
    · intro h
      simp [reSearchWordAux] at h
    · rintro ⟨pre, post, habs, -, -⟩
      have hw : w = [] :=
        (List.append_eq_nil.mp (List.append_eq_nil.mp habs.symm).1).2
      rw [hw] at hw1
      simp [wordnessOpt] at hw1
  | cons c rest ih =>
    intro prev
    rw [reSearchWordAux_cons, Bool.or_eq_true, ih (some c)]
    constructor
    · rintro (hA | ⟨pre, post, heq, hb1, hb2⟩)
      · rw [Bool.and_eq_true, Bool.and_eq_true] at hA
        obtain ⟨⟨hpre, hprev⟩, hpost⟩ := hA
        rw [hw1] at hprev
        rw [hw2] at hpost
        obtain ⟨post', hpost'⟩ := List.isPrefixOf_iff_prefix.mp hpre
        refine ⟨[], post', by rw [List.nil_append, hpost'], ?_, ?_⟩
        · rw [lastOr_nil]
          simpa using hprev
        · have hdrop : (c :: rest).drop w.length = post' := by
            rw [← hpost', List.drop_left]
          rw [hdrop] at hpost
          simpa using hpost
      · refine ⟨c :: pre, post, by rw [heq]; simp, ?_, hb2⟩
        rw [lastOr_cons]
        exact hb1
    · rintro ⟨pre, post, heq, hb1, hb2⟩
      cases pre with
      | nil =>
        left
        rw [List.nil_append] at heq
        rw [lastOr_nil] at hb1
        have hpre : w.isPrefixOf (c :: rest) = true := by
          rw [heq]
          exact isPrefixOf_append_self w post
        have hdrop : (c :: rest).drop w.length = post := by
          rw [heq, List.drop_left]
        rw [hpre, hw1, hw2, hdrop, hb1, hb2]
        rfl
      | cons d pre' =>
        right
        rw [List.cons_append, List.cons_append] at heq
        injection heq with h1 h2
        subst h1
        refine ⟨pre', post, h2, ?_, hb2⟩
        rw [lastOr_cons] at hb1
        exact hb1

/-- Every loaded blocklist word begins and ends with a word character. -/
lemma negativeWords_wordness :
    ∀ w ∈ negativeWords, wordnessOpt w.head? = true ∧ wordnessOpt w.getLast? = true := by
  decide

/-- Claim C2: the content filter flags a text exactly when some blocklisted
word occurs as a whole word — bounded by non-word characters or string
edges — in the lowercased text (hence in any letter case); a blocklisted
word occurring only inside a longer word does not flag, and the empty text
is clean. -/
theorem c2_content_filter (t : List Char) :
    (check_negative_content t = true ↔
      ∃ w ∈ negativeWords, WholeWordAt w (pyLower t)) ∧
    check_negative_content [] = false := by
  refine ⟨?_, by decide⟩
  rw [check_negative_content, List.any_eq_true]
  constructor
  · rintro ⟨w, hw, hsearch⟩
    have hww := negativeWords_wordness w hw
    obtain ⟨pre, post, heq, hb1, hb2⟩ :=
      (reSearchWordAux_iff w hww.1 hww.2 (pyLower t) none).mp hsearch
    exact ⟨w, hw, pre, post, heq, by rwa [lastOr_none] at hb1, hb2⟩
  · rintro ⟨w, hw, pre, post, heq, hb1, hb2⟩
    have hww := negativeWords_wordness w hw
    exact ⟨w, hw, (reSearchWordAux_iff w hww.1 hww.2 (pyLower t) none).mpr
      ⟨pre, post, heq, by rwa [lastOr_none], hb2⟩⟩

/-- Witness for C2: a mixed-case whole-word hit flags, the empty text is
clean. -/
theorem c2_content_filter_witness :
    check_negative_content (("you are StUpId").data) = true ∧
    check_negative_content [] = false :=
  ⟨(c2_content_filter (("you are StUpId").data)).1.mpr
    ⟨("stupid").data, by decide, ("you are ").data, [], by decide, by decide, by decide⟩,
   (c2_content_filter []).2⟩

lemma pyLower_append (a b : List Char) : pyLower (a ++ b) = pyLower a ++ pyLower b :=
  List.map_append _ a b

lemma pyLower_length_eq (n' name : List Char) (h : pyLower n' = pyLower name) :
    n'.length = name.length := by
  have := congrArg List.length h
  simpa [pyLower] using this

lemma subMentionF_nil (name : List Char) (f : Nat) : subMentionF name f [] = [] := by
  cases f <;> rfl

lemma subMentionF_succ_cons (name : List Char) (f : Nat) (c : Char) (rest : List Char) :
    subMentionF name (f + 1) (c :: rest) =
      if ('@' :: pyLower name).isPrefixOf (pyLower (c :: rest)) then
        subMentionF name f ((rest.drop name.length).dropWhile pyIsSpace)
      else c :: subMentionF name f rest := rfl

lemma subMentionF_fuel (name : List Char) :
    ∀ (f1 f2 : Nat) (t : List Char), t.length ≤ f1 → t.length ≤ f2 →
      subMentionF name f1 t = subMentionF name f2 t := by
  intro f1
  induction f1 with
  | zero =>
    intro f2 t h1 _
    have ht : t = [] := List.length_eq_zero.mp (Nat.le_zero.mp h1)
    subst ht
    rw [subMentionF_nil, subMentionF_nil]
  | succ g1 ih =>
    intro f2 t h1 h2
    cases t with
    | nil => rw [subMentionF_nil, subMentionF_nil]
    | cons c rest =>
      cases f2 with
      | zero => simp at h2
      | succ g2 =>
        rw [subMentionF_succ_cons, subMentionF_succ_cons]
        have hr1 : rest.length ≤ g1 := by simp at h1; omega
        have hr2 : rest.length ≤ g2 := by simp at h2; omega
        have hlen : ((rest.drop name.length).dropWhile pyIsSpace).length ≤ rest.length := by
          refine le_trans (List.Sublist.length_le (List.dropWhile_sublist _)) ?_
          rw [List.length_drop]
          omega
        split
        · exact ih g2 _ (le_trans hlen hr1) (le_trans hlen hr2)
        · rw [ih g2 rest hr1 hr2]

lemma subMention_cons_match (name : List Char) (c : Char) (rest : List Char)
    (h : ('@' :: pyLower name).isPrefixOf (pyLower (c :: rest)) = true) :
    subMention name (c :: rest) =
      subMention name ((rest.drop name.length).dropWhile pyIsSpace) := by
  show subMentionF name (rest.length + 1) (c :: rest) = _
  rw [subMentionF_succ_cons, if_pos h]
  refine subMentionF_fuel name rest.length _ _ ?_ (le_refl _)
  refine le_trans (List.Sublist.length_le (List.dropWhile_sublist _)) ?_
  rw [List.length_drop]
  omega

lemma subMention_cons_nomatch (name : List Char) (c : Char) (rest : List Char)
    (h : ('@' :: pyLower name).isPrefixOf (pyLower (c :: rest)) = false) :
    subMention name (c :: rest) = c :: subMention name rest := by
  show subMentionF name (rest.length + 1) (c :: rest) = _
  rw [subMentionF_succ_cons, if_neg (by simp [h])]
  rfl

lemma dropWhile_all_append (ws po : List Char) (hws : ∀ c ∈ ws, pyIsSpace c = true) :
    (ws ++ po).dropWhile pyIsSpace = po.dropWhile pyIsSpace := by
  have h : ws.dropWhile pyIsSpace = [] := List.dropWhile_eq_nil_iff.mpr hws
  rw [List.dropWhile_append, h]
  simp

/-- The substitution of line 211 of `bot.py` deletes a case-insensitive
`@`-mention of the bot name together with the following run of whitespace,
and leaves a mention-free region before it intact. -/
lemma subMention_strip (name n' ws po : List Char)
    (hn : pyLower n' = pyLower name)
    (hws : ∀ c ∈ ws, pyIsSpace c = true) :
    ∀ pre : List Char, (∀ c ∈ pre, Char.toLower c ≠ '@') →
      subMention name (pre ++ ('@' :: n') ++ ws ++ po) =
        pre ++ subMention name (po.dropWhile pyIsSpace) := by
  intro pre
  induction pre with
  | nil =>
    intro _
    have hshape : ([] : List Char) ++ ('@' :: n') ++ ws ++ po =
        '@' :: (n' ++ ws ++ po) := by simp
    rw [hshape]
    have hmatch : ('@' :: pyLower name).isPrefixOf
        (pyLower ('@' :: (n' ++ ws ++ po))) = true := by
      show ('@' :: pyLower name).isPrefixOf
        (Char.toLower '@' :: pyLower (n' ++ ws ++ po)) = true
      rw [show Char.toLower '@' = '@' from by decide]
      apply List.isPrefixOf_iff_prefix.mpr
      rw [List.cons_prefix_cons]
      refine ⟨rfl, ?_⟩
      rw [pyLower_append, pyLower_append, ← hn]
      exact (List.prefix_append _ _).trans
        ((List.prefix_append _ _).trans (List.prefix_refl _))
    rw [subMention_cons_match name _ _ hmatch]
    have hdrop : (n' ++ ws ++ po).drop name.length = ws ++ po := by
      rw [← pyLower_length_eq n' name hn, List.append_assoc, List.drop_left]
    rw [hdrop, dropWhile_all_append ws po hws, List.nil_append]
  | cons c pre' ih =>
    intro hpre
    have hc : Char.toLower c ≠ '@' := hpre c (List.mem_cons_self _ _)
    have hshape : (c :: pre') ++ ('@' :: n') ++ ws ++ po =
        c :: (pre' ++ ('@' :: n') ++ ws ++ po) := by simp
    rw [hshape]
    have hnomatch : ('@' :: pyLower name).isPrefixOf
        (pyLower (c :: (pre' ++ ('@' :: n') ++ ws ++ po))) = false := by
      apply Bool.eq_false_iff.mpr
      intro hcon
      have hpref := List.isPrefixOf_iff_prefix.mp hcon
      have : ('@' :: pyLower name) <+:
          (Char.toLower c :: pyLower (pre' ++ ('@' :: n') ++ ws ++ po)) := hpref
      rw [List.cons_prefix_cons] at this
      exact hc this.1.symm
    rw [subMention_cons_nomatch name _ _ hnomatch]
    rw [ih (fun x hx => hpre x (List.mem_cons_of_mem _ hx))]
    rfl

/-- Claim C8: when the inbound text contains the bot's address token — the
`@`-mention of the bot name, matched case-insensitively and followed by
optional whitespace — `handle_message` strips it (together with the trailing
whitespace run) before the whitespace-trimmed remainder becomes the query. -/
theorem c8_mention_stripped (name n' ws po pre : List Char)
    (hpre : ∀ c ∈ pre, Char.toLower c ≠ '@')
    (hn : pyLower n' = pyLower name)
    (hws : ∀ c ∈ ws, pyIsSpace c = true) :
    extract_query name (pre ++ ('@' :: n') ++ ws ++ po) =
      pyStrip (pre ++ subMention name (po.dropWhile pyIsSpace)) := by
  unfold extract_query
  rw [subMention_strip name n' ws po hn hws pre hpre]

/-- Witness for C8: a leading case-insensitive mention plus whitespace is
removed and the remainder becomes the query. -/
theorem c8_mention_stripped_witness :
    extract_query (("fishbot").data) (("@FishBot  what is x").data) =
      ("what is x").data := by
  have h := c8_mention_stripped (("fishbot").data) (("FishBot").data) (("  ").data)
    (("what is x").data) [] (by decide) (by decide) (by decide)
  rw [show ("@FishBot  what is x").data =
      ([] : List Char) ++ ('@' :: ("FishBot").data) ++ ("  ").data ++ ("what is x").data
    from by decide]
  rw [h]
  decide

lemma pyLStrip_cons_of_neg (c : Char) (l : List Char) (h : pyIsSpace c = false) :
    pyLStrip (c :: l) = c :: l := by
  unfold pyLStrip
  rw [List.dropWhile_cons]
  simp [h]

lemma pyLStrip_cons_of_pos (c : Char) (l : List Char) (h : pyIsSpace c = true) :
    pyLStrip (c :: l) = pyLStrip l := by
  unfold pyLStrip
  rw [List.dropWhile_cons]
  simp [h]

lemma pyLStrip_eq_nil_iff (l : List Char) :
    pyLStrip l = [] ↔ ∀ c ∈ l, pyIsSpace c = true := by
  simp [pyLStrip, List.dropWhile_eq_nil_iff]

lemma pyRStrip_eq_nil_iff (l : List Char) :
    pyRStrip l = [] ↔ ∀ c ∈ l, pyIsSpace c = true := by
  simp [pyRStrip, List.dropWhile_eq_nil_iff]

lemma dropWhile_append_of_ne_nil (p : Char → Bool) (xs ys : List Char)
    (h : xs.dropWhile p ≠ []) :
    (xs ++ ys).dropWhile p = xs.dropWhile p ++ ys := by
  rw [List.dropWhile_append]
  simp [List.isEmpty_iff, h]

lemma pyRStrip_append (a b : List Char) (h : pyRStrip b ≠ []) :
    pyRStrip (a ++ b) = a ++ pyRStrip b := by
  have hne : b.reverse.dropWhile pyIsSpace ≠ [] := by
    intro hcon
    apply h
    unfold pyRStrip
    rw [hcon]
    rfl
  unfold pyRStrip
  rw [List.reverse_append, dropWhile_append_of_ne_nil _ _ _ hne, List.reverse_append,
    List.reverse_reverse]

lemma dropWhile_idem (p : Char → Bool) :
    ∀ l : List Char, (l.dropWhile p).dropWhile p = l.dropWhile p := by
  intro l
  induction l with
  | nil => rfl
  | cons c t ih =>
    rw [List.dropWhile_cons]
    by_cases h : p c = true
    · rw [if_pos h]
      exact ih
    · rw [if_neg h, List.dropWhile_cons,
        if_neg h]

lemma pyRStrip_idem (l : List Char) : pyRStrip (pyRStrip l) = pyRStrip l := by
  unfold pyRStrip
  rw [List.reverse_reverse, dropWhile_idem]

lemma pyRStrip_cons (c : Char) (l : List Char) :
    pyRStrip (c :: l) =
      if pyRStrip l = [] then (if pyIsSpace c then [] else [c]) else c :: pyRStrip l := by
  by_cases h : pyRStrip l = []
  · rw [if_pos h]
    have hdw : l.reverse.dropWhile pyIsSpace = [] := by
      have h2 := h
      unfold pyRStrip at h2
      exact List.reverse_eq_nil_iff.mp h2
    unfold pyRStrip
    rw [show (c :: l).reverse = l.reverse ++ [c] from by simp]
    rw [List.dropWhile_append, hdw]
    simp only [List.isEmpty_nil, if_true, List.dropWhile_cons, List.dropWhile_nil]
    split <;> simp
  · rw [if_neg h]
    have hne : l.reverse.dropWhile pyIsSpace ≠ [] := by
      intro hcon
      apply h
      unfold pyRStrip
      rw [hcon]
      rfl
    unfold pyRStrip
    rw [show (c :: l).reverse = l.reverse ++ [c] from by simp]
    rw [dropWhile_append_of_ne_nil _ _ _ hne, List.reverse_append]
    simp

lemma pyStrip_comm (l : List Char) : pyLStrip (pyRStrip l) = pyRStrip (pyLStrip l) := by
  induction l with
  | nil => rfl
  | cons c t ih =>
    by_cases hc : pyIsSpace c = true
    · rw [pyRStrip_cons, pyLStrip_cons_of_pos c t hc]
      by_cases ht : pyRStrip t = []
      · rw [if_pos ht, if_pos hc]
        have hall := (pyRStrip_eq_nil_iff t).mp ht
        rw [(pyLStrip_eq_nil_iff t).mpr hall]
        rfl
      · rw [if_neg ht, pyLStrip_cons_of_pos c _ hc, ih]
    · have hc' : pyIsSpace c = false := by
        cases h2 : pyIsSpace c
        · rfl
        · exact absurd h2 hc
      rw [pyLStrip_cons_of_neg c t hc', pyRStrip_cons]
      by_cases ht : pyRStrip t = []
      · rw [if_pos ht, if_neg (by rw [hc']; exact (fun hcon => by cases hcon))]
        exact pyLStrip_cons_of_neg c [] hc'
      · rw [if_neg ht]
        exact pyLStrip_cons_of_neg c _ hc'

lemma pyStrip_cons_space (l : List Char) : pyStrip (' ' :: l) = pyStrip l := by
  unfold pyStrip
  rw [pyLStrip_cons_of_pos ' ' l (by decide)]

lemma pyStrip_pyRStrip (l : List Char) : pyStrip (pyRStrip l) = pyStrip l := by
  unfold pyStrip
  rw [pyStrip_comm, pyRStrip_idem]

lemma pyRStrip_ne_nil_of_strip (q : List Char) (h : pyStrip q ≠ []) : pyRStrip q ≠ [] := by
  intro hcon
  apply h
  have hall := (pyRStrip_eq_nil_iff q).mp hcon
  unfold pyStrip
  rw [(pyLStrip_eq_nil_iff q).mpr hall]
  rfl

lemma pyLStrip_head_not_space (l : List Char) :
    ∀ c l', pyLStrip l = c :: l' → pyIsSpace c = false := by
  induction l with
  | nil => intro c l' h; cases h
  | cons d t ih =>
    intro c l' h
    unfold pyLStrip at h
    rw [List.dropWhile_cons] at h
    by_cases hd : pyIsSpace d = true
    · rw [if_pos hd] at h
      exact ih c l' h
    · rw [if_neg hd] at h
      injection h with h1 _
      subst h1
      exact Bool.eq_false_iff.mpr hd

lemma pyStrip_head_not_space (a : List Char) :
    pyStrip a = [] ∨ ∃ c l', pyStrip a = c :: l' ∧ pyIsSpace c = false := by
  cases hY : pyLStrip a with
  | nil =>
    left
    unfold pyStrip
    rw [hY]
    rfl
  | cons c Y' =>
    have hc := pyLStrip_head_not_space a c Y' hY
    unfold pyStrip
    rw [hY, pyRStrip_cons]
    by_cases ht : pyRStrip Y' = []
    · rw [if_pos ht, if_neg (by rw [hc]; exact (fun hcon => by cases hcon))]
      right
      exact ⟨c, [], rfl, hc⟩
    · rw [if_neg ht]
      right
      exact ⟨c, pyRStrip Y', rfl, hc⟩

lemma pyRStrip_append_spaces (a w : List Char) (hw : ∀ c ∈ w, pyIsSpace c = true) :
    pyRStrip (a ++ w) = pyRStrip a := by
  unfold pyRStrip
  rw [List.reverse_append]
  rw [dropWhile_all_append w.reverse a.reverse (by simpa using hw)]

lemma pyStrip_append_space (a : List Char) (h : pyStrip a ≠ []) :
    pyStrip (pyStrip a ++ [' ']) = pyStrip a := by
  rcases pyStrip_head_not_space a with hnil | ⟨c, l', hcons, hc⟩
  · exact absurd hnil h
  · have hl : pyLStrip (pyStrip a ++ [' ']) = pyStrip a ++ [' '] := by
      rw [hcons]
      exact pyLStrip_cons_of_neg c (l' ++ [' ']) hc
    unfold pyStrip
    rw [show pyLStrip (pyRStrip (pyLStrip a) ++ [' ']) = pyRStrip (pyLStrip a) ++ [' ']
      from hl]
    rw [pyRStrip_append_spaces _ [' '] (by decide), pyRStrip_idem]

lemma splitNLAux_cons (acc : List Char) (c : Char) (t : List Char) :
    splitNLAux acc (c :: t) =
      if c == '\n' then acc.reverse :: splitNLAux [] t else splitNLAux (c :: acc) t := rfl

lemma splitNLAux_append_newline :
    ∀ (x y acc : List Char), splitNLAux acc (x ++ '\n' :: y) = splitNLAux acc x ++ splitNL y := by
  intro x
  induction x with
  | nil => intro y acc; rfl
  | cons c t ih =>
    intro y acc
    rw [List.cons_append, splitNLAux_cons, splitNLAux_cons]
    split
    · rw [ih]
      rfl
    · exact ih y (c :: acc)

lemma splitNL_append_newline (x y : List Char) :
    splitNL (x ++ '\n' :: y) = splitNL x ++ splitNL y :=
  splitNLAux_append_newline x y []

lemma splitNLAux_no_newline :
    ∀ (l acc : List Char), (∀ c ∈ l, c ≠ '\n') → splitNLAux acc l = [acc.reverse ++ l] := by
  intro l
  induction l with
  | nil => intro acc _; simp [splitNLAux]
  | cons c t ih =>
    intro acc h
    rw [splitNLAux_cons, if_neg (by simpa using h c (List.mem_cons_self _ _))]
    rw [ih (c :: acc) (fun x hx => h x (List.mem_cons_of_mem _ hx))]
    simp

lemma splitNL_no_newline (l : List Char) (h : ∀ c ∈ l, c ≠ '\n') : splitNL l = [l] := by
  rw [splitNL, splitNLAux_no_newline l [] h]
  rfl

lemma pyStrip_marker_line (m : Char) (q : List Char) (hm : pyIsSpace m = false)
    (hq : pyStrip q ≠ []) :
    pyStrip (m :: ':' :: ' ' :: q) = m :: ':' :: ' ' :: pyRStrip q := by
  unfold pyStrip
  rw [pyLStrip_cons_of_neg _ _ hm]
  rw [show m :: ':' :: ' ' :: q = [m, ':', ' '] ++ q from rfl]
  rw [pyRStrip_append _ _ (pyRStrip_ne_nil_of_strip q hq)]
  rfl

lemma qaStep_qline (st : QAState) (q : List Char) (hq : pyStrip q ≠ []) :
    qaStep st ('Q' :: ':' :: ' ' :: q) =
      { pairs :=
          if truthyS st.question && truthyS st.answer then
            st.pairs ++ [(st.question.getD [], st.answer.getD [])]
          else st.pairs,
        question := some (pyStrip q), answer := some [] } := by
  rw [qaStep_eq, pyStrip_marker_line 'Q' q (by decide) hq]
  rw [if_pos (show qMark.isPrefixOf ('Q' :: ':' :: ' ' :: pyRStrip q) = true from rfl)]
  congr 1
  rw [show ('Q' :: ':' :: ' ' :: pyRStrip q).drop 2 = ' ' :: pyRStrip q from rfl]
  rw [pyStrip_cons_space, pyStrip_pyRStrip]

lemma qaStep_aline (st : QAState) (a : List Char) (ha : pyStrip a ≠ [])
    (hqst : truthyS st.question = true) :
    qaStep st ('A' :: ':' :: ' ' :: a) = { st with answer := some (pyStrip a) } := by
  rw [qaStep_eq, pyStrip_marker_line 'A' a (by decide) ha]
  have hqa : qMark.isPrefixOf ('A' :: ':' :: ' ' :: pyRStrip a) = false := rfl
  rw [if_neg (by simp [hqa])]
  have haa : (aMark.isPrefixOf ('A' :: ':' :: ' ' :: pyRStrip a) &&
      truthyS st.question) = true := by
    rw [show aMark.isPrefixOf ('A' :: ':' :: ' ' :: pyRStrip a) = true from rfl, hqst]
    rfl
  rw [if_pos haa]
  congr 1
  rw [show ('A' :: ':' :: ' ' :: pyRStrip a).drop 2 = ' ' :: pyRStrip a from rfl]
  rw [pyStrip_cons_space, pyStrip_pyRStrip]

lemma qaStep_blank (st : QAState) (hqst : truthyS st.question = true)
    (hans : st.answer.isSome = true) :
    qaStep st [] = { st with answer := some (st.answer.getD [] ++ [' ']) } := by
  rw [qaStep_eq]
  have h1 : qMark.isPrefixOf (pyStrip ([] : List Char)) = false := rfl
  rw [if_neg (by simp [h1])]
  have h2 : (aMark.isPrefixOf (pyStrip ([] : List Char)) && truthyS st.question) = false := by
    rfl
  rw [if_neg (by simp [h2])]
  rw [if_pos (by rw [hqst, hans]; rfl)]
  rfl

/-- Claim C9: appending a question/answer pair with `add_to_knowledge_doc`'s
`"\nQ: {q}\nA: {a}\n"` convention to any corpus and re-parsing yields, as the
last parsed entry, the original pair verbatim modulo whitespace trimming
(the parsed answer carries a trailing blank from the final empty line, which
trimming removes). -/
theorem c9_roundtrip (corpus q a : List Char)
    (hqn : ('\n' : Char) ∉ q) (han : ('\n' : Char) ∉ a)
    (hq : pyStrip q ≠ []) (ha : pyStrip a ≠ []) :
    ∃ ans, (parseQA (appendQA corpus q a)).getLast? = some (pyStrip q, ans) ∧
      pyStrip ans = pyStrip a := by
  have hqline : ∀ c ∈ ('Q' :: ':' :: ' ' :: q), c ≠ '\n' := by
    intro c hc
    simp only [List.mem_cons] at hc
    rcases hc with rfl | rfl | rfl | hc
    · decide
    · decide
    · decide
    · exact fun heq => hqn (heq ▸ hc)
  have haline : ∀ c ∈ ('A' :: ':' :: ' ' :: a), c ≠ '\n' := by
    intro c hc
    simp only [List.mem_cons] at hc
    rcases hc with rfl | rfl | rfl | hc
    · decide
    · decide
    · decide
    · exact fun heq => han (heq ▸ hc)
  have hshape : appendQA corpus q a =
      corpus ++ '\n' :: (('Q' :: ':' :: ' ' :: q) ++
        '\n' :: (('A' :: ':' :: ' ' :: a) ++ '\n' :: ([] : List Char))) := by
    unfold appendQA
    simp
  have hlines : splitNL (appendQA corpus q a) =
      splitNL corpus ++ [('Q' :: ':' :: ' ' :: q), ('A' :: ':' :: ' ' :: a), []] := by
    rw [hshape, splitNL_append_newline, splitNL_append_newline, splitNL_append_newline]
    rw [splitNL_no_newline _ hqline, splitNL_no_newline _ haline]
    rfl
  have hq' : truthyS (some (pyStrip q)) = true := by
    simp [truthyS, List.isEmpty_iff, hq]
  refine ⟨pyStrip a ++ [' '], ?_, pyStrip_append_space a ha⟩
  rw [parseQA_eq, hlines, List.foldl_append]
  rw [List.foldl_cons, List.foldl_cons, List.foldl_cons, List.foldl_nil]
  rw [qaStep_qline _ q hq]
  rw [qaStep_aline _ a ha hq']
  rw [qaStep_blank _ hq' (by rfl)]
  have ha' : truthyS (some (pyStrip a ++ [' '])) = true := by
    simp [truthyS]
  simp [hq', ha', List.getLast?_concat]

/-- Witness for C9 with a concrete corpus and pair. -/
theorem c9_roundtrip_witness :
    ∃ ans, (parseQA (appendQA (("old text").data) (("What is X?").data)
        (("X is Y.").data))).getLast? =
      some (pyStrip (("What is X?").data), ans) ∧
      pyStrip ans = pyStrip (("X is Y.").data) :=
  c9_roundtrip (("old text").data) (("What is X?").data) (("X is Y.").data)
    (by decide) (by decide) (by decide) (by decide)

end FishBot
